import Mathlib

/-!
Shallow embedding of the treetally / silvimetric shatter pipeline.

Sources embedded:
* src/src/silvimetric/resources/metric.py — the per-cell metric functions
  (numpy arrays of float64 are modelled as lists of rationals; `np.std`,
  `scipy.stats.skew` need a square root and are therefore real-valued).
* src/python/main.py — the prototype `Bounds` / `Chunk` tiling and
  `arrange_data` cell indexing.
* src/src/silvimetric/commands/shatter.py — the per-tile pipeline
  `arrange` / `get_metrics` / `write` and the resume filter `mbr_filter`.

Code of the repository that is not under src/ (lmom4.py, Extents) is
modelled from the spec; each such definition says so in its doc comment.
-/

namespace TreeTally

set_option maxRecDepth 100000

/-! ### Basic list statistics (metric.py helpers) -/

/-- Minimum of a list, as `np.min` on a nonempty array (0 on the empty list,
which the source never passes). -/
def listMin (l : List ℚ) : ℚ := l.foldl min (l.headD 0)

/-- Maximum of a list, as `np.max` on a nonempty array. -/
def listMax (l : List ℚ) : ℚ := l.foldl max (l.headD 0)

/-- Ascending sort, as `np.sort` / the sort inside `np.percentile`. -/
def sortQ (l : List ℚ) : List ℚ := List.insertionSort (· ≤ ·) l

/-- The metric `m_count`: `len(data)`. -/
def m_count (data : List ℚ) : ℕ := data.length

/-- The metric `m_mean`: `np.mean(data)`. -/
def m_mean (data : List ℚ) : ℚ := data.sum / data.length

/-- The metric `m_min`: `np.min(data)`. -/
def m_min (data : List ℚ) : ℚ := listMin data

/-- The metric `m_max`: `np.max(data)`. -/
def m_max (data : List ℚ) : ℚ := listMax data

/-- The metric `m_median`: `np.median(data)`, the mean of the two middle
elements of the sorted data. -/
def m_median (data : List ℚ) : ℚ :=
  let s := sortQ data
  let n := s.length
  (s.getD ((n - 1) / 2) 0 + s.getD (n / 2) 0) / 2

/-- The metric `m_variance`: `np.var(data)`, the population variance. -/
def m_variance (data : List ℚ) : ℚ :=
  (data.map (fun x => (x - m_mean data) ^ 2)).sum / data.length

/-- The metric `m_stddev`: `np.std(data)`, the population standard
deviation. -/
noncomputable def m_stddev (data : List ℚ) : ℝ :=
  Real.sqrt ((m_variance data : ℚ) : ℝ)

/-- The metric `m_cv`: `np.std(data) / np.mean(data)`, with no guard on a
zero mean. -/
noncomputable def m_cv (data : List ℚ) : ℝ :=
  m_stddev data / ((m_mean data : ℚ) : ℝ)

/-- The metric `m_crr`: `(mean - min) / (max - min)`, with the sentinel on
constant data. -/
def m_crr (data : List ℚ) : ℚ :=
  let maxv := listMax data
  let minv := listMin data
  if minv = maxv then -9999
  else (m_mean data - minv) / (maxv - minv)

/-! ### Mode (metric.py `m_mode`) -/

/-- Index of the first occurrence of the maximum, as `np.argmax(data)`. -/
def argmaxIdx (l : List ℚ) : ℕ := l.indexOf (listMax l)

/-- Edge `k` of the 64-bin histogram over `[minv, maxv]`, as the bin edges
of `np.histogram(data, bins=64)`. -/
def histEdge (minv maxv : ℚ) (k : ℕ) : ℚ := minv + k * (maxv - minv) / 64

/-- Bin counts of the 64-bin histogram of `np.histogram(data, bins=64)`:
each bin is half-open, the last bin also contains the right edge. -/
def histCounts (data : List ℚ) : List ℕ :=
  let minv := listMin data
  let maxv := listMax data
  (List.range 64).map fun i =>
    data.countP fun x =>
      decide (histEdge minv maxv i ≤ x) &&
        (decide (x < histEdge minv maxv (i + 1)) ||
          (decide (i = 63) && decide (x ≤ maxv)))

/-- Index of the first occurrence of the maximum count. -/
def argmaxNat (l : List ℕ) : ℕ := l.indexOf (l.foldl max 0)

/-- The metric `m_mode` as the source computes it: after the `minv == maxv`
early return, the source builds `np.histogram(data, bins=64)` but never uses
the result; `thebin` is `np.argmax(data)` — the index of the first maximal
element of the raw data array — and the value returned is
`minv + thebin * (maxv - minv) / 63`. -/
def m_mode (data : List ℚ) : ℚ :=
  let maxv := listMax data
  let minv := listMin data
  if minv = maxv then minv
  else
    let thebin := argmaxIdx data
    minv + thebin * (maxv - minv) / (64 - 1)

/-- Modelled from the spec: the mode as the spec (and the comment above
`m_mode` in the source) describe it — the index of the highest-count bin of
the 64-bin histogram, scaled by `(maxv - minv) / 63`.  Kept for comparison
with `m_mode`. -/
def m_mode_spec (data : List ℚ) : ℚ :=
  let maxv := listMax data
  let minv := listMin data
  if minv = maxv then minv
  else minv + argmaxNat (histCounts data) * (maxv - minv) / (64 - 1)

/-! ### Skewness, kurtosis, L-moments (metric.py) -/

/-- Central moment of order `k` of the data, `mean((x - mean)^k)`. -/
def centralMoment (data : List ℚ) (k : ℕ) : ℚ :=
  (data.map (fun x => (x - m_mean data) ^ k)).sum / data.length

/-- The statistic computed by `scipy.stats.skew` (biased):
`m3 / m2 ** 1.5`. -/
noncomputable def skewStat (data : List ℚ) : ℝ :=
  ((centralMoment data 3 : ℚ) : ℝ) /
    Real.sqrt ((centralMoment data 2 : ℚ) : ℝ) ^ 3

/-- The statistic computed by `scipy.stats.kurtosis` (Fisher, biased):
`m4 / m2 ** 2 - 3`. -/
def kurtStat (data : List ℚ) : ℚ :=
  centralMoment data 4 / centralMoment data 2 ^ 2 - 3

/-- The metric `m_skewness`: the sentinel below 4 points, else
`scipy.stats.skew(data)`. -/
noncomputable def m_skewness (data : List ℚ) : ℝ :=
  if data.length < 4 then -9999 else skewStat data

/-- The metric `m_kurtosis`: the sentinel below 4 points, else
`scipy.stats.kurtosis(data)`. -/
def m_kurtosis (data : List ℚ) : ℚ :=
  if data.length < 4 then -9999 else kurtStat data

/-- Modelled from the spec: `lmom4.py` is not under src/; the spec says the
first four L-moments follow the standard unbiased plotting-position
formulas, i.e. the probability-weighted moments `b0..b3` of the sorted
sample combined as `l1 = b0`, `l2 = 2 b1 - b0`, `l3 = 6 b2 - 6 b1 + b0`,
`l4 = 20 b3 - 30 b2 + 12 b1 - b0`. -/
def lmom4 (data : List ℚ) : ℚ × ℚ × ℚ × ℚ :=
  let s := sortQ data
  let n := s.length
  let b0 := s.sum / n
  let b1 := ((s.enum.map (fun p => (p.1 : ℚ) / ((n : ℚ) - 1) * p.2)).sum) / n
  let b2 := ((s.enum.map (fun p =>
    ((p.1 * (p.1 - 1) : ℕ) : ℚ) / (((n : ℚ) - 1) * ((n : ℚ) - 2)) * p.2)).sum) / n
  let b3 := ((s.enum.map (fun p =>
    ((p.1 * (p.1 - 1) * (p.1 - 2) : ℕ) : ℚ) /
      (((n : ℚ) - 1) * ((n : ℚ) - 2) * ((n : ℚ) - 3)) * p.2)).sum) / n
  (b0, 2 * b1 - b0, 6 * b2 - 6 * b1 + b0, 20 * b3 - 30 * b2 + 12 * b1 - b0)

/-- The metric `m_l1`: the sentinel below 4 points, else `np.mean(data)`. -/
def m_l1 (data : List ℚ) : ℚ :=
  if data.length < 4 then -9999 else m_mean data

/-- The metric `m_l2`: the sentinel below 4 points, else the second
L-moment. -/
def m_l2 (data : List ℚ) : ℚ :=
  if data.length < 4 then -9999 else (lmom4 data).2.1

/-- The metric `m_l3`. -/
def m_l3 (data : List ℚ) : ℚ :=
  if data.length < 4 then -9999 else (lmom4 data).2.2.1

/-- The metric `m_l4`. -/
def m_l4 (data : List ℚ) : ℚ :=
  if data.length < 4 then -9999 else (lmom4 data).2.2.2

/-- The metric `m_lcv`: `l2 / l1`, with sentinels below 4 points and on
`l1 == 0`. -/
def m_lcv (data : List ℚ) : ℚ :=
  if data.length < 4 then -9999
  else
    let l := lmom4 data
    if l.1 = 0 then -9999 else l.2.1 / l.1

/-- The metric `m_lskewness`: `l3 / l2`, with sentinels below 4 points and
on `l2 == 0`. -/
def m_lskewness (data : List ℚ) : ℚ :=
  if data.length < 4 then -9999
  else
    let l := lmom4 data
    if l.2.1 = 0 then -9999 else l.2.2.1 / l.2.1

/-- The metric `m_lkurtosis`: `l4 / l2`, with sentinels below 4 points and
on `l2 == 0`. -/
def m_lkurtosis (data : List ℚ) : ℚ :=
  if data.length < 4 then -9999
  else
    let l := lmom4 data
    if l.2.1 = 0 then -9999 else l.2.2.2 / l.2.1

/-! ### Percentiles and profile area (metric.py) -/

/-- Fractional rank of the `q`-th percentile: `q/100 * (n - 1)`. -/
def pctPos (data : List ℚ) (q : ℚ) : ℚ :=
  q * (((sortQ data).length : ℚ) - 1) / 100

/-- Integer part of the fractional rank. -/
def pctIdx (data : List ℚ) (q : ℚ) : ℕ := (⌊pctPos data q⌋).toNat

/-- `np.percentile(data, q)` with the default linear interpolation between
nearest ranks: position `q/100 * (n-1)` in the sorted data, interpolating
between the two neighbouring elements. -/
def percentile (data : List ℚ) (q : ℚ) : ℚ :=
  (sortQ data).getD (pctIdx data q) 0 +
    (pctPos data q - (pctIdx data q : ℚ)) *
      ((sortQ data).getD (min (pctIdx data q + 1) ((sortQ data).length - 1)) 0 -
        (sortQ data).getD (pctIdx data q) 0)

/-- The metric `m_profilearea` as the source computes it: the sentinel when
`np.max(data) <= 0`; otherwise `p` is the vector of the 1st..99th
percentiles, `p0 = max(np.min(data), 0.0)`, and when `p[98] > 0` the result
is `(p0/p[98] + sum of 2*ip/p[98] for ip in p[:97] + 1) * 0.5` (the loop
runs over `p[:97]`, i.e. the 1st..97th percentiles), else the sentinel. -/
def m_profilearea (data : List ℚ) : ℚ :=
  if listMax data ≤ 0 then -9999
  else
    let p := (List.range 99).map fun i : ℕ => percentile data ((i : ℚ) + 1)
    let p0 := max (listMin data) 0
    if 0 < p.getD 98 0 then
      ((p.take 97).foldl (fun acc ip => acc + 2 * ip / p.getD 98 0)
        (p0 / p.getD 98 0) + 1) * (1 / 2)
    else -9999

/-- Modelled from the spec: the profile-area formula exactly as the claim
states it — `0.5 * (p1/p99 + 2*p2/p99 + ... + 2*p98/p99 + p99/p99)` when
the 99th percentile is strictly positive, else the sentinel.  Kept for
comparison with `m_profilearea`. -/
def profilearea_claim (data : List ℚ) : ℚ :=
  if percentile data 99 ≤ 0 then -9999
  else
    (percentile data 1 / percentile data 99 +
      ((List.range 97).map fun i : ℕ =>
        2 * percentile data ((i : ℚ) + 2) / percentile data 99).sum +
      percentile data 99 / percentile data 99) * (1 / 2)

/-! ### Prototype tiling (src/python/main.py) -/

/-- The `Bounds` object of main.py: a rectangle, a cell size and a group
size.  `xi` and `yi` (the grid dimensions) are derived. -/
structure PyBounds where
  minx : ℚ
  miny : ℚ
  maxx : ℚ
  maxy : ℚ
  cell : ℚ
  gs : ℕ
deriving DecidableEq

/-- `Bounds.xi = math.ceil((maxx - minx) / cell_size)`, the x cell count. -/
def PyBounds.xi (b : PyBounds) : ℕ := (⌈(b.maxx - b.minx) / b.cell⌉).toNat

/-- `Bounds.yi = math.ceil((maxy - miny) / cell_size)`, the y cell count. -/
def PyBounds.yi (b : PyBounds) : ℕ := (⌈(b.maxy - b.miny) / b.cell⌉).toNat

/-- Python `range(0, stop, step)` for a positive step. -/
def pyRangeBy (stop step : ℕ) : List ℕ :=
  List.range' 0 ((stop + step - 1) / step) step

/-- The `Chunk` object of main.py: inclusive cell index ranges
`[x1, x2] × [y1, y2]`. -/
structure PyChunk where
  x1 : ℕ
  x2 : ℕ
  y1 : ℕ
  y2 : ℕ
deriving DecidableEq

/-- `Chunk.indices`: `[[i, j] for i in range(x1, x2+1) for j in
range(y1, y2+1)]`. -/
def PyChunk.indices (c : PyChunk) : List (ℕ × ℕ) :=
  (List.range' c.x1 (c.x2 + 1 - c.x1)).flatMap fun i =>
    (List.range' c.y1 (c.y2 + 1 - c.y1)).map fun j => (i, j)

/-- `Bounds.chunk`: for `i in range(0, xi)` and `j in range(0, yi,
group_size)`, yield `Chunk([i, i], [j, min(j + group_size - 1, yi)])`. -/
def PyBounds.chunk (b : PyBounds) : List PyChunk :=
  (List.range b.xi).flatMap fun i =>
    (pyRangeBy b.yi b.gs).map fun j => ⟨i, i, j, min (j + b.gs - 1) b.yi⟩

/-! ### Shatter pipeline (src/src/silvimetric/commands/shatter.py) -/

/-- A rectangle `(minx, miny, maxx, maxy)`, the bounds of a tile or an MBR
of written cells. -/
structure Rect where
  minx : ℚ
  miny : ℚ
  maxx : ℚ
  maxy : ℚ
deriving DecidableEq

/-- Two rectangles share area iff they overlap with positive measure in
both axes. -/
def sharesArea (a b : Rect) : Bool :=
  decide (a.minx < b.maxx) && decide (b.minx < a.maxx) &&
    decide (a.miny < b.maxy) && decide (b.miny < a.maxy)

/-- Modelled from the spec: `Extents.disjoint_by_mbr` is not under src/;
the spec says it is true iff the tile's rectangle shares no area with a
previously-written MBR. -/
def disjoint_by_mbr (a b : Rect) : Bool := ! sharesArea a b

/-- The resume filter of `run`: a leaf is kept iff it is disjoint from
every recorded MBR (`all(one.disjoint_by_mbr(m) for m in config.mbr)`). -/
def mbr_filter (mbrs : List Rect) (one : Rect) : Bool :=
  mbrs.all fun m => disjoint_by_mbr one m

/-- A leaf tile abstracted for the resume argument: its rectangle and the
number of points its pipeline run writes. -/
structure Leaf where
  rect : Rect
  count : ℕ

/-- Aggregate point count of a run over a list of leaves: the coordinator
sums the per-tile `write` results. -/
def runTotal (ls : List Leaf) : ℕ := (ls.map (fun l => l.count)).sum

/-- Aggregate point count after an interrupted run (the leaves with
`done`) followed by a resumed run over the leaves that pass `mbr_filter`
against the recorded MBRs. -/
def resumeTotal (ls : List Leaf) (done : Leaf → Bool) (mbrs : List Rect) : ℕ :=
  runTotal (ls.filter done) + runTotal (ls.filter fun l => mbr_filter mbrs l.rect)

/-- A point row of the per-tile dataframe: coordinates `X`, `Y`, the
retained attribute columns (`Z` and `Intensity` here) and the unfloored
cell index columns `xi`, `yi` computed upstream from the root bounds. -/
structure SPoint where
  x : ℚ
  y : ℚ
  z : ℚ
  intensity : ℚ
  xi : ℚ
  yi : ℚ
deriving DecidableEq

/-- The `(xi, yi)` group key after `da.floor` is applied to the index
columns. -/
def cellKey (p : SPoint) : ℤ × ℤ := (⌊p.xi⌋, ⌊p.yi⌋)

/-- A grouped tile: each floored `(xi, yi)` key with its rows. -/
abbrev Grouped := List ((ℤ × ℤ) × List SPoint)

/-- Pandas `groupby(['xi', 'yi'])`: one group per distinct key, rows in
input order. -/
def groupByCell (ps : List SPoint) : Grouped :=
  ((ps.map cellKey).dedup).map fun k => (k, ps.filter fun p => cellKey p = k)

/-- The `arrange` stage of shatter.py: `None` in, or an empty dataframe in,
gives `None`; otherwise drop rows with `Y >= leaf.bounds.maxy`, then rows
with `X >= leaf.bounds.maxx`, floor the index columns and group by
`(xi, yi)`. -/
def arrange (points : Option (List SPoint)) (leaf : Rect) : Option Grouped :=
  match points with
  | none => none
  | some ps =>
    if ps.length = 0 then none
    else
      let f1 := ps.filter fun p => p.y < leaf.maxy
      let f2 := f1.filter fun p => p.x < leaf.maxx
      some (groupByCell f2)

/-- All rows appearing in a grouped tile. -/
def arrangedPoints (g : Grouped) : List SPoint :=
  (g.map fun kc => kc.2).flatten

/-- One output row of `get_metrics`: the cell index, the raw attribute
vectors, the metric columns for each attribute, and `count`. -/
structure CellOut where
  xi : ℤ
  yi : ℤ
  zs : List ℚ
  intens : List ℚ
  mzs : List ℚ
  mintens : List ℚ
  count : ℕ
deriving DecidableEq

/-- The `get_metrics` stage of shatter.py: `None` short-circuits;
otherwise every metric is applied to every attribute vector of every cell
(`data_in.agg(ms)`), the raw vectors are collected (`data_in.agg(list)`),
and `count` is assigned as `len(z) for z in joined_data.Z`. -/
def get_metrics (d : Option Grouped) (metrics : List (List ℚ → ℚ)) :
    Option (List CellOut) :=
  match d with
  | none => none
  | some g => some (g.map fun kc =>
      ⟨kc.1.1, kc.1.2,
        kc.2.map (fun p => p.z), kc.2.map (fun p => p.intensity),
        metrics.map fun m => m (kc.2.map (fun p => p.z)),
        metrics.map fun m => m (kc.2.map (fun p => p.intensity)),
        (kc.2.map (fun p => p.z)).length⟩)

/-- The `write` stage of shatter.py: `None` writes nothing and returns 0;
otherwise the batch is written and `dd['count'].sum()` is returned. -/
def write (d : Option (List CellOut)) : ℕ :=
  match d with
  | none => 0
  | some cs => (cs.map fun c => c.count).sum

/-! ### Claim C1 — mode -/

/-- C1: the claim says `m_mode` returns the highest-count-bin height
`min + argmax(histogram counts) * (max - min) / 63`.  The source instead
takes `np.argmax` over the raw data array.  On `[0, 1, 1]` the first
maximal element sits at index 1, so the source returns `1/63`, while the
histogram's highest-count bin is bin 63, giving `1`. -/
theorem C1_mode_argmax_over_data :
    m_mode [0, 1, 1] = 1 / 63 ∧ m_mode_spec [0, 1, 1] = 1 ∧
      m_mode [0, 1, 1] ≠ m_mode_spec [0, 1, 1] :=
  of_decide_eq_true (by with_unfolding_all rfl)

/-! ### Claim C2 — chunk indices within the grid -/

/-- C2: the claim says every `(x, y)` pair enumerated by `Bounds.chunk`
lies in `[0, xi_count) × [0, yi_count)`.  With bounds `0..1 × 0..4`, cell
size 1 and group size 3 the grid is `1 × 4`, yet the second chunk is
`Chunk([0,0], [3, min(3+3-1, 4)]) = Chunk([0,0], [3,4])` and enumerates
`(0, 4)` with `4 = yi_count`, outside the half-open range. -/
theorem C2_chunk_enumerates_yi_count :
    (0, 4) ∈ (PyBounds.chunk ⟨0, 0, 1, 4, 1, 3⟩).flatMap PyChunk.indices ∧
      PyBounds.yi ⟨0, 0, 1, 4, 1, 3⟩ = 4 :=
  of_decide_eq_true (by with_unfolding_all rfl)

/-! ### Helper lemmas -/

/-- Point count of a cons of leaves. -/
theorem runTotal_cons (a : Leaf) (t : List Leaf) :
    runTotal (a :: t) = a.count + runTotal t := by
  simp [runTotal]

/-- The resume filter rejects a leaf exactly when some recorded MBR shares
area with it. -/
theorem mbr_filter_eq_false_iff (mbrs : List Rect) (r : Rect) :
    mbr_filter mbrs r = false ↔ ∃ m ∈ mbrs, sharesArea r m = true := by
  rw [Bool.eq_false_iff, Ne, mbr_filter, List.all_eq_true]
  simp [disjoint_by_mbr]

/-- Core of the resume-idempotence argument: if every completed leaf that
wrote points is rejected by the resume filter and every uncompleted leaf
passes it, the interrupted total plus the resumed total equals the
uninterrupted total. -/
theorem resume_eq_run (ls : List Leaf) (done : Leaf → Bool) (mbrs : List Rect)
    (h1 : ∀ l ∈ ls, done l = true → l.count ≠ 0 → mbr_filter mbrs l.rect = false)
    (h2 : ∀ l ∈ ls, done l = false → mbr_filter mbrs l.rect = true) :
    resumeTotal ls done mbrs = runTotal ls := by
  induction ls with
  | nil => simp [resumeTotal, runTotal]
  | cons a t ih =>
    have h1t : ∀ l ∈ t, done l = true → l.count ≠ 0 → mbr_filter mbrs l.rect = false :=
      fun l hl => h1 l (List.mem_cons_of_mem _ hl)
    have h2t : ∀ l ∈ t, done l = false → mbr_filter mbrs l.rect = true :=
      fun l hl => h2 l (List.mem_cons_of_mem _ hl)
    have iht := ih h1t h2t
    rw [resumeTotal] at iht ⊢
    by_cases hda : done a = true
    · by_cases hpa : mbr_filter mbrs a.rect = true
      · have hc : a.count = 0 := by
          by_contra hc
          rw [h1 a (List.mem_cons_self a t) hda hc] at hpa
          exact Bool.false_ne_true hpa
        simp only [List.filter_cons, hda, hpa, if_true, runTotal_cons, hc]
        omega
      · have hpa' : mbr_filter mbrs a.rect = false := Bool.eq_false_iff.2 hpa
        simp only [List.filter_cons, hda, hpa', if_true, Bool.false_eq_true,
          if_false, runTotal_cons]
        omega
    · have hda' : done a = false := Bool.eq_false_iff.2 hda
      have hpa := h2 a (List.mem_cons_self a t) hda'
      simp only [List.filter_cons, hda', hpa, if_true, Bool.false_eq_true,
        if_false, runTotal_cons]
      omega

/-- A row of some group of `groupByCell l` is a row of `l`. -/
theorem mem_of_mem_groupByCell (l : List SPoint) (p : SPoint)
    (hp : p ∈ arrangedPoints (groupByCell l)) : p ∈ l := by
  unfold arrangedPoints groupByCell at hp
  rw [List.map_map] at hp
  rcases List.mem_flatten.1 hp with ⟨rows, hrows, hpr⟩
  rcases List.mem_map.1 hrows with ⟨k, hk, hkr⟩
  subst hkr
  have hpr' : p ∈ l.filter (fun q => decide (cellKey q = k)) := hpr
  exact (List.mem_filter.1 hpr').1

/-! ### Claim C3 — resume idempotence -/

/-- C3: a leaf is skipped by the resumed run exactly when its rectangle
shares area with a recorded MBR, and when the recorded MBRs reject exactly
the completed leaves that wrote points (every MBR of a completed tile lies
inside that tile, and tiles are pairwise area-disjoint, so an uncompleted
leaf is disjoint from every recorded MBR), the interrupted run's total plus
the resumed run's total equals the uninterrupted total. -/
theorem C3_resume_idempotent (ls : List Leaf) (done : Leaf → Bool)
    (mbrs : List Rect)
    (h1 : ∀ l ∈ ls, done l = true → l.count ≠ 0 → mbr_filter mbrs l.rect = false)
    (h2 : ∀ l ∈ ls, done l = false → mbr_filter mbrs l.rect = true) :
    (∀ r : Rect, mbr_filter mbrs r = false ↔ ∃ m ∈ mbrs, sharesArea r m = true) ∧
      resumeTotal ls done mbrs = runTotal ls :=
  ⟨fun r => mbr_filter_eq_false_iff mbrs r, resume_eq_run ls done mbrs h1 h2⟩

/-- Witness for C3: two adjacent unit tiles with 3 and 4 points; the first
completed and its MBR recorded; the resumed aggregate equals the full run's
7 points. -/
theorem C3_witness :
    resumeTotal [⟨⟨0, 0, 1, 1⟩, 3⟩, ⟨⟨1, 0, 2, 1⟩, 4⟩]
        (fun l => l.count == 3) [⟨0, 0, 1, 1⟩] =
      runTotal [⟨⟨0, 0, 1, 1⟩, 3⟩, ⟨⟨1, 0, 2, 1⟩, 4⟩] :=
  (C3_resume_idempotent _ _ _
    (of_decide_eq_true (by with_unfolding_all rfl))
    (of_decide_eq_true (by with_unfolding_all rfl))).2

/-! ### Claim C4 — empty tiles short-circuit -/

/-- C4 counterexample: a batch with one point at `Y = 2 ≥ maxy = 1` has
zero points after the boundary filtering, yet `arrange` does not return
`None` — the emptiness test of the source runs before the filter, so the
result is an empty grouping, not `Empty`. -/
theorem C4_filtered_empty_not_none :
    ((([⟨1/2, 2, 7, 3, 1/2, 2⟩] : List SPoint).filter fun p =>
        p.y < (1 : ℚ)).filter fun p => p.x < (1 : ℚ)).length = 0 ∧
      arrange (some [⟨1/2, 2, 7, 3, 1/2, 2⟩]) ⟨0, 0, 1, 1⟩ ≠ none :=
  of_decide_eq_true (by with_unfolding_all rfl)

/-- C4 (amended): a missing batch or a batch that is empty before the
boundary filtering yields `Empty` (`None`), and every downstream stage
short-circuits on `Empty`: `get_metrics` propagates `None` and `write`
returns 0. -/
theorem C4_empty_short_circuit (leaf : Rect) (ps : List SPoint)
    (ms : List (List ℚ → ℚ)) (h : ps.length = 0) :
    arrange none leaf = none ∧ arrange (some ps) leaf = none ∧
      get_metrics none ms = none ∧ write none = 0 := by
  refine ⟨rfl, ?_, rfl, rfl⟩
  simp [arrange, h]

/-- Witness for C4 at the empty batch. -/
theorem C4_witness :
    arrange none ⟨0, 0, 1, 1⟩ = none ∧
      arrange (some []) ⟨0, 0, 1, 1⟩ = none ∧
      get_metrics none [] = none ∧ write none = 0 :=
  C4_empty_short_circuit ⟨0, 0, 1, 1⟩ [] [] rfl

/-! ### Claim C8 — half-open tile ownership -/

/-- C8: every row retained by `arrange` comes from the input batch and
satisfies `Y < leaf.maxy` and `X < leaf.maxx`; consequently any point with
`Y ≥ maxy` or `X ≥ maxx` is excluded from the tile's output. -/
theorem C8_half_open_ownership (ps : List SPoint) (leaf : Rect) (g : Grouped)
    (hg : arrange (some ps) leaf = some g) :
    ∀ p ∈ arrangedPoints g, p ∈ ps ∧ p.y < leaf.maxy ∧ p.x < leaf.maxx := by
  intro p hp
  unfold arrange at hg
  by_cases h0 : ps.length = 0
  · simp [h0] at hg
  · simp only [if_neg h0, Option.some.injEq] at hg
    subst hg
    have hp2 := mem_of_mem_groupByCell _ _ hp
    have hx := (List.mem_filter.1 hp2).2
    have hp1 := (List.mem_filter.1 hp2).1
    have hy := (List.mem_filter.1 hp1).2
    exact ⟨(List.mem_filter.1 hp1).1, of_decide_eq_true hy, of_decide_eq_true hx⟩

/-- Witness for C8: a two-point batch where the second point sits on the
upper boundary; the retained point is in the batch and strictly inside. -/
theorem C8_witness :
    (⟨1/2, 1/2, 7, 3, 1/2, 1/2⟩ : SPoint) ∈
        ([⟨1/2, 1/2, 7, 3, 1/2, 1/2⟩, ⟨1/2, 5, 8, 3, 1/2, 5⟩] : List SPoint) ∧
      (⟨1/2, 1/2, 7, 3, 1/2, 1/2⟩ : SPoint).y < (1 : ℚ) ∧
      (⟨1/2, 1/2, 7, 3, 1/2, 1/2⟩ : SPoint).x < (1 : ℚ) :=
  C8_half_open_ownership
    [⟨1/2, 1/2, 7, 3, 1/2, 1/2⟩, ⟨1/2, 5, 8, 3, 1/2, 5⟩] ⟨0, 0, 1, 1⟩
    [((0, 0), [⟨1/2, 1/2, 7, 3, 1/2, 1/2⟩])]
    (of_decide_eq_true (by with_unfolding_all rfl)) _
    (of_decide_eq_true (by with_unfolding_all rfl))

/-! ### Claim C9 — count equals raw-vector length -/

/-- C9: in every cell produced by `get_metrics`, the `count` column equals
the length of each raw-attribute vector of that cell. -/
theorem C9_count_is_vector_length (g : Grouped) (ms : List (List ℚ → ℚ))
    (out : List CellOut) (h : get_metrics (some g) ms = some out) :
    ∀ c ∈ out, c.count = c.zs.length ∧ c.count = c.intens.length := by
  intro c hc
  simp only [get_metrics, Option.some.injEq] at h
  subst h
  rcases List.mem_map.1 hc with ⟨kc, _, hkc⟩
  rcases hkc with ⟨⟩
  simp

/-- Witness for C9 on a one-cell, two-row grouping. -/
theorem C9_witness :
    (⟨0, 0, [7, 8], [3, 4], [], [], 2⟩ : CellOut).count =
        (⟨0, 0, [7, 8], [3, 4], [], [], 2⟩ : CellOut).zs.length ∧
      (⟨0, 0, [7, 8], [3, 4], [], [], 2⟩ : CellOut).count =
        (⟨0, 0, [7, 8], [3, 4], [], [], 2⟩ : CellOut).intens.length :=
  C9_count_is_vector_length
    [((0, 0), [⟨1/2, 1/2, 7, 3, 1/2, 1/2⟩, ⟨1/2, 1/2, 8, 4, 1/2, 1/2⟩])] []
    [⟨0, 0, [7, 8], [3, 4], [], [], 2⟩]
    (of_decide_eq_true (by with_unfolding_all rfl)) _
    (of_decide_eq_true (by with_unfolding_all rfl))

/-! ### Claim C10 — CV is an unguarded division -/

/-- C10: `m_cv` is exactly the division `std(data) / mean(data)` with no
guard, and when the mean is zero the sentinel is not returned. -/
theorem C10_cv_division_unguarded (data : List ℚ) :
    m_cv data = m_stddev data / ((m_mean data : ℚ) : ℝ) ∧
      (m_mean data = 0 → m_cv data ≠ -9999) := by
  refine ⟨rfl, fun h => ?_⟩
  rw [m_cv, h]
  norm_num

/-- Witness for C10 at `[-1, 1]`, whose mean is zero. -/
theorem C10_witness : m_cv [-1, 1] ≠ -9999 :=
  (C10_cv_division_unguarded [-1, 1]).2
    (of_decide_eq_true (by with_unfolding_all rfl))

/-! ### Claim C6 — small-sample sentinels -/

/-- C6: below 4 points, skewness, kurtosis and all seven L-moment metrics
return the sentinel; from 4 points on, skewness and kurtosis take the
non-sentinel branch and return the statistic computed from the data. -/
theorem C6_small_sample_sentinels (data : List ℚ) :
    (data.length < 4 →
      m_skewness data = -9999 ∧ m_kurtosis data = -9999 ∧
        m_l1 data = -9999 ∧ m_l2 data = -9999 ∧ m_l3 data = -9999 ∧
        m_l4 data = -9999 ∧ m_lcv data = -9999 ∧ m_lskewness data = -9999 ∧
        m_lkurtosis data = -9999) ∧
    (4 ≤ data.length →
      m_skewness data = skewStat data ∧ m_kurtosis data = kurtStat data) := by
  constructor
  · intro h
    simp [m_skewness, m_kurtosis, m_l1, m_l2, m_l3, m_l4, m_lcv,
      m_lskewness, m_lkurtosis, h]
  · intro h
    have h' : ¬data.length < 4 := Nat.not_lt.2 h
    simp [m_skewness, m_kurtosis, h']

/-- Witness for C6: three points trigger every sentinel, four points give
the plain statistics. -/
theorem C6_witness :
    (m_skewness [1, 2, 3] = -9999 ∧ m_kurtosis [1, 2, 3] = -9999 ∧
        m_l1 [1, 2, 3] = -9999 ∧ m_l2 [1, 2, 3] = -9999 ∧
        m_l3 [1, 2, 3] = -9999 ∧ m_l4 [1, 2, 3] = -9999 ∧
        m_lcv [1, 2, 3] = -9999 ∧ m_lskewness [1, 2, 3] = -9999 ∧
        m_lkurtosis [1, 2, 3] = -9999) ∧
      (m_skewness [0, 1, 2, 3] = skewStat [0, 1, 2, 3] ∧
        m_kurtosis [0, 1, 2, 3] = kurtStat [0, 1, 2, 3]) :=
  ⟨(C6_small_sample_sentinels [1, 2, 3]).1 (by decide),
    (C6_small_sample_sentinels [0, 1, 2, 3]).2 (by decide)⟩

/-! ### Constant-vector lemmas for C7 -/

/-- Folding `min` over a list of copies of `c` starting at `c` gives `c`. -/
theorem foldl_min_const (c : ℚ) :
    ∀ l : List ℚ, (∀ x ∈ l, x = c) → l.foldl min c = c := by
  intro l
  induction l with
  | nil => intro _; rfl
  | cons b t ih =>
    intro h
    rw [List.foldl_cons, h b (List.mem_cons_self b t), min_self]
    exact ih fun x hx => h x (List.mem_cons_of_mem _ hx)

/-- Folding `max` over a list of copies of `c` starting at `c` gives `c`. -/
theorem foldl_max_const (c : ℚ) :
    ∀ l : List ℚ, (∀ x ∈ l, x = c) → l.foldl max c = c := by
  intro l
  induction l with
  | nil => intro _; rfl
  | cons b t ih =>
    intro h
    rw [List.foldl_cons, h b (List.mem_cons_self b t), max_self]
    exact ih fun x hx => h x (List.mem_cons_of_mem _ hx)

/-- On a nonempty constant list, `listMin` is the constant. -/
theorem listMin_const (data : List ℚ) (c : ℚ) (hne : data ≠ [])
    (hc : ∀ x ∈ data, x = c) : listMin data = c := by
  cases data with
  | nil => exact absurd rfl hne
  | cons a t =>
    have ha : a = c := hc a (List.mem_cons_self a t)
    unfold listMin
    rw [List.headD_cons, List.foldl_cons, min_self, ha]
    exact foldl_min_const c t fun x hx => hc x (List.mem_cons_of_mem _ hx)

/-- On a nonempty constant list, `listMax` is the constant. -/
theorem listMax_const (data : List ℚ) (c : ℚ) (hne : data ≠ [])
    (hc : ∀ x ∈ data, x = c) : listMax data = c := by
  cases data with
  | nil => exact absurd rfl hne
  | cons a t =>
    have ha : a = c := hc a (List.mem_cons_self a t)
    unfold listMax
    rw [List.headD_cons, List.foldl_cons, max_self, ha]
    exact foldl_max_const c t fun x hx => hc x (List.mem_cons_of_mem _ hx)

/-- The sum of a constant list. -/
theorem sum_of_const (l : List ℚ) (c : ℚ) (hc : ∀ x ∈ l, x = c) :
    l.sum = l.length * c := by
  induction l with
  | nil => simp
  | cons a t ih =>
    rw [List.sum_cons, hc a (List.mem_cons_self a t),
      ih fun x hx => hc x (List.mem_cons_of_mem _ hx)]
    push_cast [List.length_cons]
    ring

/-- The mean of a nonempty constant list is the constant. -/
theorem m_mean_const (data : List ℚ) (c : ℚ) (hne : data ≠ [])
    (hc : ∀ x ∈ data, x = c) : m_mean data = c := by
  have hn : ((data.length : ℚ)) ≠ 0 := by
    have := List.length_pos.2 hne
    positivity
  rw [m_mean, sum_of_const data c hc, mul_comm, mul_div_assoc,
    div_self hn, mul_one]

/-- Sorting preserves membership. -/
theorem mem_sortQ (l : List ℚ) (x : ℚ) : x ∈ sortQ l ↔ x ∈ l :=
  (List.perm_insertionSort (· ≤ ·) l).mem_iff

/-- Sorting preserves length. -/
theorem length_sortQ (l : List ℚ) : (sortQ l).length = l.length :=
  (List.perm_insertionSort (· ≤ ·) l).length_eq

/-- An in-range `getD` of a constant list is the constant. -/
theorem getD_of_all_eq (s : List ℚ) (c : ℚ) (h : ∀ x ∈ s, x = c) (i : ℕ)
    (hi : i < s.length) : s.getD i 0 = c := by
  rw [List.getD_eq_getElem s 0 hi]
  exact h _ (List.getElem_mem hi)

/-- The median of a nonempty constant list is the constant. -/
theorem m_median_const (data : List ℚ) (c : ℚ) (hne : data ≠ [])
    (hc : ∀ x ∈ data, x = c) : m_median data = c := by
  have hcs : ∀ x ∈ sortQ data, x = c := fun x hx =>
    hc x ((mem_sortQ data x).1 hx)
  have hpos : 0 < (sortQ data).length := by
    rw [length_sortQ]
    exact List.length_pos.2 hne
  rw [m_median]
  rw [getD_of_all_eq _ c hcs _
      (lt_of_le_of_lt (Nat.div_le_self _ _) (Nat.sub_lt hpos one_pos)),
    getD_of_all_eq _ c hcs _ (Nat.div_lt_self hpos one_lt_two)]
  ring

/-- The population variance of a nonempty constant list is zero. -/
theorem m_variance_const (data : List ℚ) (c : ℚ) (hne : data ≠ [])
    (hc : ∀ x ∈ data, x = c) : m_variance data = 0 := by
  rw [m_variance]
  rw [List.sum_eq_zero, zero_div]
  intro x hx
  rcases List.mem_map.1 hx with ⟨a, ha, rfl⟩
  rw [hc a ha, m_mean_const data c hne hc, sub_self]
  ring

/-! ### Claim C7 — constant cells -/

/-- C7: on a nonempty vector all of whose values equal `c`, min, max, mean
and median all return `c`, variance and standard deviation return 0, and
`m_crr` returns the sentinel. -/
theorem C7_constant_cell (data : List ℚ) (c : ℚ) (hne : data ≠ [])
    (hc : ∀ x ∈ data, x = c) :
    m_min data = c ∧ m_max data = c ∧ m_mean data = c ∧ m_median data = c ∧
      m_stddev data = 0 ∧ m_variance data = 0 ∧ m_crr data = -9999 := by
  have hvar := m_variance_const data c hne hc
  refine ⟨listMin_const data c hne hc, listMax_const data c hne hc,
    m_mean_const data c hne hc, m_median_const data c hne hc, ?_, hvar, ?_⟩
  · rw [m_stddev, hvar]
    simp
  · rw [m_crr]
    simp [listMin_const data c hne hc, listMax_const data c hne hc]

/-- Witness for C7 at ten copies of 42. -/
theorem C7_witness :
    m_min [42, 42, 42, 42, 42, 42, 42, 42, 42, 42] = 42 ∧
      m_max [42, 42, 42, 42, 42, 42, 42, 42, 42, 42] = 42 ∧
      m_mean [42, 42, 42, 42, 42, 42, 42, 42, 42, 42] = 42 ∧
      m_median [42, 42, 42, 42, 42, 42, 42, 42, 42, 42] = 42 ∧
      m_stddev [42, 42, 42, 42, 42, 42, 42, 42, 42, 42] = 0 ∧
      m_variance [42, 42, 42, 42, 42, 42, 42, 42, 42, 42] = 0 ∧
      m_crr [42, 42, 42, 42, 42, 42, 42, 42, 42, 42] = -9999 :=
  C7_constant_cell _ 42 (List.cons_ne_nil _ _)
    (of_decide_eq_true (by with_unfolding_all rfl))

/-! ### Percentile bounds and the profile-area formula (C5) -/

/-- The start value bounds a `max`-fold from below. -/
theorem le_foldl_max (l : List ℚ) : ∀ a : ℚ, a ≤ l.foldl max a := by
  induction l with
  | nil => intro a; exact le_refl a
  | cons b t ih =>
    intro a
    rw [List.foldl_cons]
    exact le_trans (le_max_left a b) (ih (max a b))

/-- Every element bounds a `max`-fold from below. -/
theorem mem_le_foldl_max (l : List ℚ) (x : ℚ) (hx : x ∈ l) :
    ∀ a : ℚ, x ≤ l.foldl max a := by
  induction l with
  | nil => cases hx
  | cons b t ih =>
    intro a
    rw [List.foldl_cons]
    rcases List.mem_cons.1 hx with rfl | hxt
    · exact le_trans (le_max_right a x) (le_foldl_max t (max a x))
    · exact ih hxt (max a b)

/-- Every element of the data is at most `listMax`. -/
theorem le_listMax (data : List ℚ) (x : ℚ) (hx : x ∈ data) :
    x ≤ listMax data :=
  mem_le_foldl_max data x hx (data.headD 0)

/-- A percentile with `0 ≤ q ≤ 100` never exceeds the maximum: it is a
convex combination of two elements of the sorted data. -/
theorem percentile_le_max (data : List ℚ) (q : ℚ) (hne : data ≠ [])
    (hq0 : 0 ≤ q) (hq1 : q ≤ 100) : percentile data q ≤ listMax data := by
  have hlen : 0 < (sortQ data).length := by
    rw [length_sortQ]
    exact List.length_pos.2 hne
  have hn1 : (1 : ℚ) ≤ ((sortQ data).length : ℚ) := by exact_mod_cast hlen
  have hpos0 : 0 ≤ pctPos data q := by
    apply div_nonneg _ (by norm_num)
    exact mul_nonneg hq0 (by linarith)
  have hposle : pctPos data q ≤ ((sortQ data).length : ℚ) - 1 := by
    rw [pctPos, div_le_iff₀ (by norm_num : (0 : ℚ) < 100)]
    nlinarith
  have hfl0 : 0 ≤ ⌊pctPos data q⌋ := Int.floor_nonneg.2 hpos0
  have hic : ((pctIdx data q : ℕ) : ℚ) = (⌊pctPos data q⌋ : ℚ) := by
    rw [pctIdx]
    exact_mod_cast Int.toNat_of_nonneg hfl0
  have hfloor_le : (⌊pctPos data q⌋ : ℚ) ≤ pctPos data q := Int.floor_le _
  have hilt : pctIdx data q < (sortQ data).length := by
    have h1 : ((pctIdx data q : ℕ) : ℚ) < ((sortQ data).length : ℚ) := by
      rw [hic]
      linarith
    exact_mod_cast h1
  have hfrac0 : 0 ≤ pctPos data q - (pctIdx data q : ℚ) := by
    rw [hic]
    linarith
  have hfrac1 : pctPos data q - (pctIdx data q : ℚ) ≤ 1 := by
    rw [hic]
    have := Int.lt_floor_add_one (pctPos data q)
    linarith
  have hmem : ∀ j, j < (sortQ data).length →
      (sortQ data).getD j 0 ≤ listMax data := by
    intro j hj
    rw [List.getD_eq_getElem _ 0 hj]
    exact le_listMax data _ ((mem_sortQ data _).1 (List.getElem_mem hj))
  have hlo := hmem _ hilt
  have hhi := hmem (min (pctIdx data q + 1) ((sortQ data).length - 1))
    (lt_of_le_of_lt (min_le_right _ _) (Nat.sub_lt hlen one_pos))
  rw [percentile]
  nlinarith [mul_nonneg hfrac0 (sub_nonneg.2 hhi),
    mul_nonneg (sub_nonneg.2 hfrac1) (sub_nonneg.2 hlo)]

/-- Folding addition of `f` over a list equals the starting value plus the
sum of the mapped list. -/
theorem foldl_add_map (l : List ℚ) (init : ℚ) (f : ℚ → ℚ) :
    l.foldl (fun acc x => acc + f x) init = init + (l.map f).sum := by
  induction l generalizing init with
  | nil => simp
  | cons a t ih => simp [List.foldl_cons, ih, add_assoc]

/-! ### Claim C5 — profile area -/

/-- C5 counterexample: on `[1, 2]` the 99th percentile is positive, yet the
source's profile area differs from the claim's formula
`0.5 * (p1/p99 + 2*p2/p99 + ... + 2*p98/p99 + p99/p99)`: the source starts
the trapezoid at `max(min, 0)` and doubles the 1st..97th percentiles,
omitting the 98th. -/
theorem C5_formula_differs :
    0 < percentile [1, 2] 99 ∧
      m_profilearea [1, 2] ≠ profilearea_claim [1, 2] :=
  of_decide_eq_true (by with_unfolding_all rfl)

/-- C5 (amended): for nonempty data, `m_profilearea` returns the sentinel
exactly when the 99th percentile is not strictly positive (the
`np.max(data) <= 0` early return implies this case, since a percentile
never exceeds the maximum), and otherwise returns
`0.5 * (max(min, 0)/p99 + 2*p1/p99 + ... + 2*p97/p99 + 1)` — the doubled
interior runs over the 1st..97th percentiles and the lower trapezoid end is
`max(min, 0)`, not the 1st percentile. -/
theorem C5_profilearea_formula (data : List ℚ) (hne : data ≠ []) :
    m_profilearea data =
      if percentile data 99 ≤ 0 then -9999
      else
        (max (listMin data) 0 / percentile data 99 +
          ((List.range 97).map fun i : ℕ =>
            2 * percentile data ((i : ℚ) + 1) / percentile data 99).sum +
          1) * (1 / 2) := by
  have hp99max := percentile_le_max data 99 hne (by norm_num) (by norm_num)
  have hgetD :
      ((List.range 99).map fun i : ℕ => percentile data ((i : ℚ) + 1)).getD 98 0 =
        percentile data 99 := by
    rw [List.getD_eq_getElem _ _ (by simp)]
    norm_num
  have htake :
      ((List.range 99).map fun i : ℕ => percentile data ((i : ℚ) + 1)).take 97 =
        (List.range 97).map fun i : ℕ => percentile data ((i : ℚ) + 1) := by
    rw [← List.map_take, List.take_range]
    norm_num
  by_cases h1 : listMax data ≤ 0
  · have hple : percentile data 99 ≤ 0 := le_trans hp99max h1
    simp only [m_profilearea, if_pos h1, if_pos hple]
  · simp only [m_profilearea, if_neg h1]
    rw [hgetD, htake, foldl_add_map, List.map_map]
    by_cases h2 : 0 < percentile data 99
    · rw [if_pos h2, if_neg (not_le.2 h2)]
      ring_nf
      rfl
    · rw [if_neg h2, if_pos (not_lt.1 h2)]

/-- Witness for C5 at `[1, 2]`. -/
theorem C5_witness :
    m_profilearea [1, 2] =
      if percentile [1, 2] 99 ≤ 0 then -9999
      else
        (max (listMin [1, 2]) 0 / percentile [1, 2] 99 +
          ((List.range 97).map fun i : ℕ =>
            2 * percentile [1, 2] ((i : ℚ) + 1) / percentile [1, 2] 99).sum +
          1) * (1 / 2) :=
  C5_profilearea_formula [1, 2] (List.cons_ne_nil _ _)

end TreeTally
